import Mathlib

/-!
Verification of the OpenMDAO backtracking line search
(`openmdao/solvers/nl_btlinesearch.py`) and the distributed-vector
contract it depends on, as a shallow embedding.

Scalars are modelled as rationals (exact arithmetic); a distributed
vector is its global element list.  Stateful methods become explicit
state-passing functions; collaborator calls (residual-norm measurement,
nested sub-solves) are recorded in an event trace so that call ordering
can be stated and proved.
-/

/-- A distributed vector, modelled by its global list of elements.
Modelled from the spec: the Vector class itself is not among the source
files (only its test `test_vector.py` is); the operations below follow
the contract in spec section 4.1. -/
structure Vec where
  vals : List ℚ
deriving DecidableEq, Repr

/-- Modelled from the spec: `add_scal_vec(val, vec)` performs
`self <- self + val * vec` element-wise, in place. -/
def add_scal_vec (val : ℚ) (self other : Vec) : Vec :=
  ⟨List.zipWith (fun x y => x + val * y) self.vals other.vals⟩

/-- Modelled from the spec: `dot(other)` is the inner product, a
collective sum of element-wise products across all partitions. -/
def dot (self other : Vec) : ℚ :=
  (List.zipWith (· * ·) self.vals other.vals).sum

/-- Modelled from the spec: `set_const(value)` fills every element with
`value`. -/
def set_const (value : ℚ) (self : Vec) : Vec :=
  ⟨self.vals.map (fun _ => value)⟩

/-- Modelled from the spec: `_clone()` returns an independent vector with
identical layout and values.  In the pure embedding a clone is the same
value; independence of later mutations is intrinsic, since every
mutating operation returns a fresh vector. -/
def _clone (self : Vec) : Vec :=
  ⟨self.vals⟩

/-- The options declared by `BacktrackingLineSearch.__init__`:
`maxiter` (set to 5 on the base registry), `solve_subsystems`, `rho`,
`alpha` and `rtol`. -/
structure LineSearchOptions where
  maxiter : ℕ
  solve_subsystems : Bool
  rho : ℚ
  alpha : ℚ
  rtol : ℚ
deriving DecidableEq, Repr

/-- The option values a freshly constructed `BacktrackingLineSearch`
holds, as set in `__init__`: `maxiter = 5`, `solve_subsystems = True`,
`rho = 0.5`, `alpha = 1.0`, `rtol = 0.9`. -/
def defaultOptions : LineSearchOptions :=
  { maxiter := 5
    solve_subsystems := true
    rho := 1/2
    alpha := 1
    rtol := 9/10 }

/-- The mutable state the line search touches: its option registry, its
scalar step scale `self.alpha`, the system outputs vector
`system._outputs` (u) and the update vector
`system._vectors['output']['']` (du). -/
structure SolverState where
  options : LineSearchOptions
  alpha : ℚ
  u : Vec
  du : Vec
deriving DecidableEq, Repr

/-- Observable collaborator calls, recorded in order of occurrence:
an in-place scaled accumulation on the outputs vector, a nested
sub-solve of contained subsystems, and a residual-norm measurement
(a collective operation). -/
inductive VecEvent where
  | addScaled (a : ℚ)
  | subSolve
  | measureNorm
deriving DecidableEq, Repr

/-- Modelled from the spec: `_iter_get_norm` lives on the base Solver
class (`openmdao/solvers/solver.py`), which is not among the source
files.  Per spec sections 4.3 and 6, when `solve_subsystems` is enabled
the norm measurement at a trial point additionally triggers a nested
sub-solve of contained subsystems before the residual norm is measured.
The residual evaluation itself is the collaborator function `normF`. -/
def iter_get_norm (opts : LineSearchOptions) (normF : Vec → ℚ) (u : Vec) :
    ℚ × List VecEvent :=
  if opts.solve_subsystems then
    (normF u, [VecEvent.subSolve, VecEvent.measureNorm])
  else
    (normF u, [VecEvent.measureNorm])

/-- Translation of `BacktrackingLineSearch._iter_init`: set
`self.alpha = options['alpha']`, read `u` and `du`, measure `norm0`
(replacing a measured 0.0 by 1.0), apply `u.add_scal_vec(alpha, du)`,
measure `norm`, and return `(norm0, norm)`.  The second component of the
result is the returned pair; the third is the event trace. -/
def iter_init (normF : Vec → ℚ) (s : SolverState) :
    SolverState × (ℚ × ℚ) × List VecEvent :=
  let alpha := s.options.alpha
  let m0 := iter_get_norm s.options normF s.u
  let norm0 := if m0.1 = 0 then 1 else m0.1
  let u1 := add_scal_vec alpha s.u s.du
  let m1 := iter_get_norm s.options normF u1
  ({ s with alpha := alpha, u := u1 },
   (norm0, m1.1),
   m0.2 ++ (VecEvent.addScaled alpha :: m1.2))

/-- Translation of `BacktrackingLineSearch._iter_execute`: undo the
previous trial step with `u.add_scal_vec(-self.alpha, du)`, shrink the
scale with `self.alpha *= options['rho']`, and reapply the smaller step
with `u.add_scal_vec(self.alpha, du)`.  The second component is the
event trace, in execution order. -/
def iter_execute (s : SolverState) : SolverState × List VecEvent :=
  let u1 := add_scal_vec (-s.alpha) s.u s.du
  let alpha1 := s.alpha * s.options.rho
  let u2 := add_scal_vec alpha1 u1 s.du
  ({ s with alpha := alpha1, u := u2 },
   [VecEvent.addScaled (-s.alpha), VecEvent.addScaled alpha1])

/-- Iterated invocation of `_iter_execute`, as the base loop performs
once per refinement attempt. -/
def execIter : ℕ → SolverState → SolverState
  | 0, s => s
  | k + 1, s => execIter k (iter_execute s).1

/-- Outcome of one outer solve of the line search: final solver state,
last measured norm, number of refinement attempts actually executed,
whether the sufficient-decrease condition was met, and the list of
residual norms measured at the trial points in order. -/
structure SolveResult where
  state : SolverState
  norm : ℚ
  iters : ℕ
  converged : Bool
  trialNorms : List ℚ
deriving DecidableEq, Repr

/-- Modelled from the spec: the base nonlinear-solver iterate loop
(spec section 4.2; `openmdao/solvers/solver.py` is not among the source
files).  While the refinement budget is not exhausted and
`norm <= norm0 * rtol` does not yet hold, invoke `_iter_execute`,
re-measure the norm, and repeat; report convergence as a status flag. -/
def ls_loop (normF : Vec → ℚ) (norm0 : ℚ) :
    ℕ → SolverState → ℚ → SolveResult
  | 0, s, norm =>
    ⟨s, norm, 0, decide (norm ≤ norm0 * s.options.rtol), []⟩
  | fuel + 1, s, norm =>
    if norm ≤ norm0 * s.options.rtol then
      ⟨s, norm, 0, true, []⟩
    else
      let s1 := (iter_execute s).1
      let m := iter_get_norm s1.options normF s1.u
      let r := ls_loop normF norm0 fuel s1 m.1
      ⟨r.state, r.norm, r.iters + 1, r.converged, m.1 :: r.trialNorms⟩

/-- Modelled from the spec: one outer solve of the line search — run
`_iter_init`, then the base loop with a refinement budget of
`maxiter`.  The trial-norm list starts with the norm measured at the
initial trial point. -/
def solve (normF : Vec → ℚ) (s : SolverState) : SolveResult :=
  let r0 := iter_init normF s
  let r := ls_loop normF r0.2.1.1 s.options.maxiter r0.1 r0.2.1.2
  { r with trialNorms := r0.2.1.2 :: r.trialNorms }

/-- The k-th trial point of a backtracking run that starts from outputs
`u`, update `du` and initial scale `alpha0`:
`u + alpha0 * rho^k * du`. -/
def trialPoint (s : SolverState) (k : ℕ) : Vec :=
  add_scal_vec (s.options.alpha * s.options.rho ^ k) s.u s.du

/-! ## Helper lemmas -/

/-- Two successive scaled accumulations with the same update vector
collapse to one with the summed scale, at any layout (the element-wise
combination truncates identically on both sides). -/
theorem add_scal_vec_add (a b : ℚ) (u du : Vec) :
    add_scal_vec b (add_scal_vec a u du) du = add_scal_vec (a + b) u du := by
  unfold add_scal_vec
  cases u with
  | mk l =>
    cases du with
    | mk m =>
      simp only [Vec.mk.injEq]
      induction l generalizing m with
      | nil => cases m <;> rfl
      | cons x xs ih =>
        cases m with
        | nil => rfl
        | cons y ys =>
          simp only [List.zipWith, List.cons.injEq]
          exact ⟨by ring, ih ys⟩

/-- A scaled accumulation with scale 0 on matching layout is the
identity. -/
theorem add_scal_vec_zero (u du : Vec) (h : u.vals.length ≤ du.vals.length) :
    add_scal_vec 0 u du = u := by
  unfold add_scal_vec
  cases u with
  | mk l =>
    cases du with
    | mk m =>
      simp only [Vec.mk.injEq]
      induction l generalizing m with
      | nil => simp
      | cons x xs ih =>
        cases m with
        | nil => simp at h
        | cons y ys =>
          simp only [List.zipWith, List.cons.injEq]
          exact ⟨by ring, ih ys (Nat.le_of_succ_le_succ h)⟩

/-- `_iter_execute` does not touch the option registry. -/
theorem iter_execute_options (s : SolverState) :
    (iter_execute s).1.options = s.options := rfl

/-- `_iter_execute` does not touch the update vector. -/
theorem iter_execute_du (s : SolverState) :
    (iter_execute s).1.du = s.du := rfl

/-- Iterated execution does not touch the option registry. -/
theorem execIter_options (k : ℕ) (s : SolverState) :
    (execIter k s).options = s.options := by
  induction k generalizing s with
  | zero => rfl
  | succ n ih => exact ih (iter_execute s).1

/-- The step scale after `k` invocations of `_iter_execute` is the
starting scale times `rho^k`. -/
theorem execIter_alpha (k : ℕ) (s : SolverState) :
    (execIter k s).alpha = s.alpha * s.options.rho ^ k := by
  induction k generalizing s with
  | zero => simp [execIter]
  | succ n ih =>
    show (execIter n (iter_execute s).1).alpha = _
    rw [ih (iter_execute s).1]
    show s.alpha * s.options.rho * s.options.rho ^ n = _
    ring

/-! ## Claim theorems -/

/-- C1: `_iter_init` sets the step scale to `options['alpha']`,
measures the pre-step norm `norm0` (substituting 1.0 for a measured
0.0), applies `u += alpha * du` in place, measures the post-step norm at
the stepped outputs, and returns the pair `(norm0, norm)` — and nothing
else changes in the solver state. -/
theorem iter_init_spec (normF : Vec → ℚ) (s : SolverState) :
    (iter_init normF s).1 =
      { s with alpha := s.options.alpha,
               u := add_scal_vec s.options.alpha s.u s.du } ∧
    (iter_init normF s).2.1 =
      ((if normF s.u = 0 then 1 else normF s.u),
       normF (add_scal_vec s.options.alpha s.u s.du)) := by
  unfold iter_init iter_get_norm
  cases s.options.solve_subsystems <;> simp

/-- C2: `_iter_execute` undoes the previous trial step with
`u += (-alpha) * du`, then shrinks the scale to `alpha * rho`, then
reapplies the smaller step `u += (alpha * rho) * du`, all against the
same update vector `du`; the event trace records exactly the two scaled
accumulations in that order, and nothing else in the state changes. -/
theorem iter_execute_spec (s : SolverState) :
    iter_execute s =
      ({ s with alpha := s.alpha * s.options.rho,
                u := add_scal_vec (s.alpha * s.options.rho)
                       (add_scal_vec (-s.alpha) s.u s.du) s.du },
       [VecEvent.addScaled (-s.alpha),
        VecEvent.addScaled (s.alpha * s.options.rho)]) := rfl

/-- C4: the `norm0` returned by `_iter_init` is never zero — it is
the measured pre-step norm except that a measured 0.0 is replaced by
1.0 before being returned, so it is safe as a denominator. -/
theorem iter_init_norm0_ne_zero (normF : Vec → ℚ) (s : SolverState) :
    (iter_init normF s).2.1.1 ≠ 0 ∧
    (iter_init normF s).2.1.1 =
      (if normF s.u = 0 then 1 else normF s.u) := by
  have key : ∀ q : ℚ, (if q = 0 then (1 : ℚ) else q) ≠ 0 := by
    intro q
    rcases eq_or_ne q 0 with h | h
    · rw [if_pos h]
      exact one_ne_zero
    · rw [if_neg h]
      exact h
  unfold iter_init iter_get_norm
  cases s.options.solve_subsystems
  all_goals exact ⟨key _, rfl⟩

/-- C8: a freshly constructed `BacktrackingLineSearch` holds exactly the
defaults `maxiter = 5`, `solve_subsystems = True`, `rho = 0.5`,
`alpha = 1.0`, `rtol = 0.9`. -/
theorem defaultOptions_spec :
    defaultOptions.maxiter = 5 ∧
    defaultOptions.solve_subsystems = true ∧
    defaultOptions.rho = 1/2 ∧
    defaultOptions.alpha = 1 ∧
    defaultOptions.rtol = 9/10 := by
  refine ⟨rfl, rfl, rfl, rfl, rfl⟩

/-- C10: `_iter_execute` mutates only the outputs vector and the scalar
step scale: the update vector and the option registry are unchanged, and
its event trace contains no residual-norm measurement and no sub-solve
(no collective operation), only the two in-place scaled accumulations. -/
theorem iter_execute_frame (s : SolverState) :
    (iter_execute s).1.du = s.du ∧
    (iter_execute s).1.options = s.options ∧
    (iter_execute s).2 =
      [VecEvent.addScaled (-s.alpha),
       VecEvent.addScaled (s.alpha * s.options.rho)] ∧
    VecEvent.measureNorm ∉ (iter_execute s).2 ∧
    VecEvent.subSolve ∉ (iter_execute s).2 := by
  refine ⟨rfl, rfl, rfl, ?_, ?_⟩ <;> simp [iter_execute]

/-- The first component of a norm measurement is the residual norm at
the given outputs, whether or not a sub-solve was triggered. -/
theorem iter_get_norm_fst (opts : LineSearchOptions) (normF : Vec → ℚ)
    (u : Vec) : (iter_get_norm opts normF u).1 = normF u := by
  unfold iter_get_norm
  split <;> rfl

/-- C3: starting from a state whose step scale equals `options['alpha']`
(as `_iter_init` leaves it), the scale held after `k` invocations
of `_iter_execute` is `alpha_0 * rho^k`, and for `rho ∈ (0,1)` and a
positive initial scale these trial scales are strictly decreasing in
`k`. -/
theorem execIter_geometric (s : SolverState) (k : ℕ)
    (hinit : s.alpha = s.options.alpha)
    (hrho0 : 0 < s.options.rho) (hrho1 : s.options.rho < 1)
    (halpha : 0 < s.options.alpha) :
    (execIter k s).alpha = s.options.alpha * s.options.rho ^ k ∧
    (execIter (k + 1) s).alpha < (execIter k s).alpha := by
  have h1 := execIter_alpha k s
  have h2 := execIter_alpha (k + 1) s
  rw [hinit] at h1 h2
  refine ⟨h1, ?_⟩
  rw [h1, h2, pow_succ, ← mul_assoc]
  exact mul_lt_of_lt_one_right
    (mul_pos halpha (pow_pos hrho0 k)) hrho1

/-- Witness for C3 at the default options and `k = 2`. -/
theorem execIter_geometric_witness :
    (execIter 2 ⟨defaultOptions, 1, ⟨[0]⟩, ⟨[1]⟩⟩).alpha
        = defaultOptions.alpha * defaultOptions.rho ^ 2 ∧
    (execIter 3 ⟨defaultOptions, 1, ⟨[0]⟩, ⟨[1]⟩⟩).alpha
        < (execIter 2 ⟨defaultOptions, 1, ⟨[0]⟩, ⟨[1]⟩⟩).alpha :=
  execIter_geometric ⟨defaultOptions, 1, ⟨[0]⟩, ⟨[1]⟩⟩ 2
    rfl (by norm_num [defaultOptions]) (by norm_num [defaultOptions])
    (by norm_num [defaultOptions])

/-- C7: on matching layout, undoing with `add_scal_vec(-alpha, du)` and
reapplying with `add_scal_vec(alpha, du)` at the same `alpha` restores
the outputs vector exactly, in exact arithmetic. -/
theorem add_scal_vec_undo_reapply (u du : Vec) (alpha : ℚ)
    (h : u.vals.length = du.vals.length) :
    add_scal_vec alpha (add_scal_vec (-alpha) u du) du = u := by
  rw [add_scal_vec_add]
  have hz : -alpha + alpha = 0 := by ring
  rw [hz]
  exact add_scal_vec_zero u du (le_of_eq h)

/-- Witness for C7 at `u = [1, 2]`, `du = [5, 7]`, `alpha = 3`. -/
theorem add_scal_vec_undo_reapply_witness :
    (Vec.mk [(1 : ℚ), 2]).vals.length = (Vec.mk [(5 : ℚ), 7]).vals.length ∧
    add_scal_vec 3 (add_scal_vec (-3) ⟨[(1 : ℚ), 2]⟩ ⟨[(5 : ℚ), 7]⟩)
        ⟨[(5 : ℚ), 7]⟩ = ⟨[(1 : ℚ), 2]⟩ :=
  ⟨rfl, add_scal_vec_undo_reapply ⟨[(1 : ℚ), 2]⟩ ⟨[(5 : ℚ), 7]⟩ 3 rfl⟩

/-- C9: filling a clone of `v` with the constant `c` and dotting it with
the original, unmodified `v` yields `c` times the sum of `v`'s elements;
at the test fixture `v = [1, 2]`, `c = 3` the result is `9`.  In the
pure embedding the original `v` is intrinsically unchanged by the fill
on the clone: the dot is taken against `v` itself. -/
theorem clone_set_const_dot (v : Vec) (c : ℚ) :
    dot (set_const c (_clone v)) v = c * v.vals.sum ∧
    dot (set_const 3 (_clone ⟨[(1 : ℚ), 2]⟩)) ⟨[(1 : ℚ), 2]⟩ = 9 := by
  constructor
  · show (List.zipWith (· * ·) (v.vals.map fun _ => c) v.vals).sum
        = c * v.vals.sum
    induction v.vals with
    | nil => simp
    | cons x xs ih =>
      simp only [List.map, List.zipWith, List.sum_cons, ih]
      ring
  · show (List.zipWith (· * ·) ([(1 : ℚ), 2].map fun _ => (3 : ℚ))
        [(1 : ℚ), 2]).sum = 9
    norm_num [List.zipWith]

/-- C6: with `solve_subsystems` enabled, the trace of
`_iter_init` shows a sub-solve immediately before each of its two
norm measurements (in particular the one at the initial trial point),
and every norm measurement the base loop performs after a refinement
step likewise triggers the sub-solve first. -/
theorem solve_subsystems_subsolve (normF : Vec → ℚ) (s : SolverState)
    (u : Vec) (h : s.options.solve_subsystems = true) :
    (iter_init normF s).2.2 =
      [VecEvent.subSolve, VecEvent.measureNorm,
       VecEvent.addScaled s.options.alpha,
       VecEvent.subSolve, VecEvent.measureNorm] ∧
    (iter_get_norm s.options normF u).2 =
      [VecEvent.subSolve, VecEvent.measureNorm] := by
  unfold iter_init iter_get_norm
  rw [h]
  simp

/-- Witness for C6 at the default options, which enable
`solve_subsystems`. -/
theorem solve_subsystems_subsolve_witness :
    defaultOptions.solve_subsystems = true ∧
    (iter_init (fun _ => 4) ⟨defaultOptions, 0, ⟨[0]⟩, ⟨[1]⟩⟩).2.2 =
      [VecEvent.subSolve, VecEvent.measureNorm, VecEvent.addScaled 1,
       VecEvent.subSolve, VecEvent.measureNorm] ∧
    (iter_get_norm defaultOptions (fun _ => 4) ⟨[0]⟩).2 =
      [VecEvent.subSolve, VecEvent.measureNorm] :=
  ⟨rfl,
   (solve_subsystems_subsolve (fun _ => 4) ⟨defaultOptions, 0, ⟨[0]⟩, ⟨[1]⟩⟩
      ⟨[0]⟩ rfl).1,
   (solve_subsystems_subsolve (fun _ => 4) ⟨defaultOptions, 0, ⟨[0]⟩, ⟨[1]⟩⟩
      ⟨[0]⟩ rfl).2⟩

/-- A refinement budget that never meets the sufficient-decrease
condition is fully consumed: starting the base loop at the trial point
with scale `a`, if every trial norm within the budget stays above
`norm0 * rtol`, the loop executes exactly `fuel` refinements and ends,
not converged, at the trial point with scale `a * rho ^ fuel`. -/
theorem ls_loop_no_converge (normF : Vec → ℚ) (opts : LineSearchOptions)
    (u0 du : Vec) (norm0 : ℚ) (fuel : ℕ) :
    ∀ a : ℚ,
      (∀ i, i ≤ fuel →
          norm0 * opts.rtol < normF (add_scal_vec (a * opts.rho ^ i) u0 du)) →
      (ls_loop normF norm0 fuel ⟨opts, a, add_scal_vec a u0 du, du⟩
          (normF (add_scal_vec a u0 du))).state =
        ⟨opts, a * opts.rho ^ fuel,
          add_scal_vec (a * opts.rho ^ fuel) u0 du, du⟩ ∧
      (ls_loop normF norm0 fuel ⟨opts, a, add_scal_vec a u0 du, du⟩
          (normF (add_scal_vec a u0 du))).iters = fuel ∧
      (ls_loop normF norm0 fuel ⟨opts, a, add_scal_vec a u0 du, du⟩
          (normF (add_scal_vec a u0 du))).converged = false := by
  induction fuel with
  | zero =>
    intro a h
    have h0 := h 0 (Nat.le_refl 0)
    rw [pow_zero, mul_one] at h0
    refine ⟨?_, rfl, ?_⟩
    · show SolverState.mk opts a (add_scal_vec a u0 du) du = _
      rw [pow_zero, mul_one]
    · show decide (normF (add_scal_vec a u0 du) ≤ norm0 * opts.rtol) = false
      exact decide_eq_false (not_le.mpr h0)
  | succ n ih =>
    intro a h
    have h0 := h 0 (Nat.zero_le _)
    rw [pow_zero, mul_one] at h0
    have hcond : ¬ normF (add_scal_vec a u0 du) ≤ norm0 * opts.rtol :=
      not_le.mpr h0
    have hstep : add_scal_vec (a * opts.rho)
        (add_scal_vec (-a) (add_scal_vec a u0 du) du) du =
        add_scal_vec (a * opts.rho) u0 du := by
      rw [add_scal_vec_add, add_scal_vec_add]
      congr 1
      ring
    have h' : ∀ i, i ≤ n →
        norm0 * opts.rtol
          < normF (add_scal_vec (a * opts.rho * opts.rho ^ i) u0 du) := by
      intro i hi
      have hsc : a * opts.rho * opts.rho ^ i = a * opts.rho ^ (i + 1) := by
        rw [pow_succ]
        ring
      rw [hsc]
      exact h (i + 1) (Nat.succ_le_succ hi)
    obtain ⟨ih1, ih2, ih3⟩ := ih (a * opts.rho) h'
    have hsc2 : a * opts.rho * opts.rho ^ n = a * opts.rho ^ (n + 1) := by
      rw [pow_succ]
      ring
    rw [hsc2] at ih1
    simp only [ls_loop, if_neg hcond, iter_execute, iter_get_norm_fst, hstep]
    exact ⟨ih1, by rw [ih2], ih3⟩

/-- C5 (amended): when no trial scale within the `maxiter` refinement
budget meets the sufficient-decrease condition, the solver reports
non-convergence as a status (never an unhandled failure — the solve is a
total function), performs exactly `maxiter` refinements, and on exit
leaves the outputs vector at the last attempted trial point
`u_initial + alpha_0 * rho^maxiter * du`, with no further mutation. -/
theorem solve_no_converge (normF : Vec → ℚ) (s : SolverState)
    (h : ∀ i, i ≤ s.options.maxiter →
        (if normF s.u = 0 then 1 else normF s.u) * s.options.rtol
          < normF (trialPoint s i)) :
    (solve normF s).converged = false ∧
    (solve normF s).iters = s.options.maxiter ∧
    (solve normF s).state.u = trialPoint s s.options.maxiter ∧
    (solve normF s).state.alpha
      = s.options.alpha * s.options.rho ^ s.options.maxiter := by
  obtain ⟨k1, k2, k3⟩ :=
    ls_loop_no_converge normF s.options s.u s.du
      (if normF s.u = 0 then 1 else normF s.u) s.options.maxiter
      s.options.alpha h
  unfold solve iter_init
  simp only [iter_get_norm_fst]
  exact ⟨k3, k2, congrArg SolverState.u k1, congrArg SolverState.alpha k1⟩

/-- Witness for C5 (amended): a residual norm that never improves
(constant 5) exhausts a budget of one refinement and reports
non-convergence. -/
theorem solve_no_converge_witness :
    (solve (fun _ => 5)
        ⟨⟨1, false, 1/2, 1, 1/2⟩, 0, ⟨[(0 : ℚ)]⟩, ⟨[(1 : ℚ)]⟩⟩).converged
      = false ∧
    (solve (fun _ => 5)
        ⟨⟨1, false, 1/2, 1, 1/2⟩, 0, ⟨[(0 : ℚ)]⟩, ⟨[(1 : ℚ)]⟩⟩).iters = 1 :=
  ⟨(solve_no_converge (fun _ => 5)
      ⟨⟨1, false, 1/2, 1, 1/2⟩, 0, ⟨[(0 : ℚ)]⟩, ⟨[(1 : ℚ)]⟩⟩
      (by intro i hi; norm_num)).1,
   (solve_no_converge (fun _ => 5)
      ⟨⟨1, false, 1/2, 1, 1/2⟩, 0, ⟨[(0 : ℚ)]⟩, ⟨[(1 : ℚ)]⟩⟩
      (by intro i hi; norm_num)).2.1⟩

/-- A residual-norm collaborator that is anti-monotone in the step
scale on the attempted trial points: norm 10 at outputs `[1]`, norm 20
at outputs `[1/2]`, norm 1 elsewhere. -/
def cexNorm : Vec → ℚ := fun v =>
  if v.vals = [1] then 10 else if v.vals = [(1 : ℚ)/2] then 20 else 1

/-- A line-search state with one refinement of budget, starting at
outputs `[0]` with update `[1]`. -/
def cexState : SolverState :=
  ⟨⟨1, false, 1/2, 1, 1/2⟩, 0, ⟨[0]⟩, ⟨[1]⟩⟩

/-- C5 counterexample: on a non-convergent exit the outputs vector is
left at the last attempted trial point `[1/2]`, but that point is NOT
the smallest-norm trial point among those attempted — the first trial
point `[1]` (the one `_iter_init` produced) has norm 10, strictly
below the final point's norm 20, so the claim's "last attempted
(smallest-norm) trial point" is false as stated. -/
theorem solve_last_not_smallest :
    (solve cexNorm cexState).converged = false ∧
    (solve cexNorm cexState).state.u = ⟨[(1 : ℚ)/2]⟩ ∧
    (solve cexNorm cexState).trialNorms = [10, 20] ∧
    cexNorm (solve cexNorm cexState).state.u = 20 ∧
    cexNorm (add_scal_vec cexState.options.alpha cexState.u cexState.du)
      = 10 ∧
    ¬ cexNorm (solve cexNorm cexState).state.u
        ≤ cexNorm (add_scal_vec cexState.options.alpha cexState.u
            cexState.du) := by
  have hrun : solve cexNorm cexState =
      ⟨⟨⟨1, false, 1/2, 1, 1/2⟩, 1 * (1/2), ⟨[(1 : ℚ)/2]⟩, ⟨[(1 : ℚ)]⟩⟩,
        20, 1, false, [10, 20]⟩ := by
    norm_num [solve, iter_init, ls_loop, iter_execute, iter_get_norm,
      cexState, cexNorm, add_scal_vec, decide_eq_false_iff_not]
  rw [hrun]
  have h10 : cexNorm (add_scal_vec cexState.options.alpha cexState.u
      cexState.du) = 10 := by
    norm_num [cexState, cexNorm, add_scal_vec]
  rw [h10]
  have h20 : cexNorm ⟨[(1 : ℚ)/2]⟩ = 20 := by
    norm_num [cexNorm]
  refine ⟨rfl, rfl, rfl, h20, rfl, ?_⟩
  rw [h20]
  norm_num
